import Mathlib

/-!
Verification of the NMC PIN extraction module (`src/nmc_extract.py`).

The module is shallow-embedded over `List Char` (Python `str`), with the
ASCII semantics of the character classes used by the source's regular
expressions.  Fallible collaborator calls (pdfplumber, PyMuPDF, the Gemini
client) are modelled as `Except Unit`-valued data supplied by an
environment, mirroring the `try`/`except` structure of the source.
Confidence values (Python floats 0.99, 0.98, ... used only as literal
constants, never computed with) are modelled as exact rationals.
-/

namespace NmcExtract

/-- ASCII whitespace, the characters matched by the `\s` class of the
source's regular expressions (and stripped by Python `str.strip`). -/
def isSpaceChar (c : Char) : Bool :=
  c = ' ' || c = '\t' || c = '\n' || c = '\r' || c = Char.ofNat 11 || c = Char.ofNat 12

/-- ASCII upcasing, the effect of Python `str.upper` on the ASCII range. -/
def upChar (c : Char) : Char :=
  if 'a' ≤ c && c ≤ 'z' then Char.ofNat (c.toNat - 32) else c

/-- Python `str.upper` over the whole string. -/
def upper (s : List Char) : List Char := s.map upChar

/-- The decimal digits, the `\d` class of the source's patterns. -/
def isDig (c : Char) : Bool :=
  ['0', '1', '2', '3', '4', '5', '6', '7', '8', '9'].contains c

/-- The 12-letter month allow-set `[A-L]`; the source compiles its patterns
with `re.I`, so membership is up to case. -/
def monthOK (c : Char) : Bool :=
  ['A', 'B', 'C', 'D', 'E', 'F', 'G', 'H', 'I', 'J', 'K', 'L'].contains (upChar c)

/-- The 5-letter region allow-set `[ESWNO]` of `STRICT_NMC_RE`, up to case. -/
def regionOK (c : Char) : Bool :=
  ['E', 'S', 'W', 'N', 'O'].contains (upChar c)

/-- The `[A-Z]` class of `LOOSE_8_RE`, up to case (`re.I`). -/
def looseLetter (c : Char) : Bool :=
  'A' ≤ upChar c && upChar c ≤ 'Z'

/-- `\w`, the word characters deciding the `\b` boundaries. -/
def isWordChar (c : Char) : Bool := c.isAlphanum || c = '_'

/-- Characters kept by `_normalize_token`'s `re.sub(r"[^A-Z0-9]", "", ...)`. -/
def keepAZ09 (c : Char) : Bool :=
  ('A' ≤ c && c ≤ 'Z') || ('0' ≤ c && c ≤ '9')

/-- `_normalize_token`: uppercase, then drop everything outside `[A-Z0-9]`. -/
def normalize_token (token : List Char) : List Char :=
  (upper token).filter keepAZ09

/-- Python `str.strip`: drop whitespace at both ends. -/
def pyStrip (s : List Char) : List Char :=
  ((s.dropWhile isSpaceChar).reverse.dropWhile isSpaceChar).reverse

/-- The `_DIGIT_FIX` table: OCR-confusable letters replaced by digits. -/
def digitFix (c : Char) : Char :=
  if c = 'O' then '0'
  else if c = 'I' then '1'
  else if c = 'L' then '1'
  else if c = 'S' then '5'
  else if c = 'B' then '8'
  else c

/-- The `_LETTER_FIX` table: OCR-confusable digits replaced by letters. -/
def letterFix (c : Char) : Char :=
  if c = '0' then 'O'
  else if c = '1' then 'I'
  else if c = '5' then 'S'
  else if c = '8' then 'B'
  else c

/-- `_fix_by_position`: `_DIGIT_FIX` at the digit positions 0,1,3,4,5,6 and
`_LETTER_FIX` at the letter positions 2,7.  The source only ever applies it
to 8-character windows; other lengths are returned unchanged. -/
def fix_by_position (token8 : List Char) : List Char :=
  match token8 with
  | [a, b, c, d, e, f, g, h] =>
      [digitFix a, digitFix b, letterFix c, digitFix d,
       digitFix e, digitFix f, digitFix g, letterFix h]
  | other => other

/-- An 8-character chunk matching `\d{2} M \d{4} R` for the given month- and
region-letter classes; any other length fails. -/
def matches8With (month region : Char → Bool) (t : List Char) : Bool :=
  match t with
  | [a, b, c, d, e, f, g, h] =>
      isDig a && isDig b && month c && isDig d &&
      isDig e && isDig f && isDig g && region h
  | _ => false

/-- The body of `STRICT_NMC_RE`: `\d{2}[A-L]\d{4}[ESWNO]` (case-insensitive). -/
def matches8Strict (t : List Char) : Bool := matches8With monthOK regionOK t

/-- The body of `LOOSE_8_RE`: `\d{2}[A-Z]\d{4}[A-Z]` (case-insensitive). -/
def matches8Loose (t : List Char) : Bool := matches8With looseLetter looseLetter t

/-- `_validate_strict`: `STRICT_NMC_RE.fullmatch`.  Because the pattern's
first and last characters are word characters, the surrounding `\b` anchors
are vacuous under `fullmatch`, leaving exactly the 8-character class check. -/
def validate_strict (pin : List Char) : Bool := matches8Strict pin

/-- An anchored match of a (fixed-width-8) pattern at offset `i` of `s`,
including the two `\b` word-boundary conditions. -/
def boundedAt (m8 : List Char → Bool) (s : List Char) (i : Nat) : Bool :=
  m8 ((s.drop i).take 8)
  && (i == 0 || !(isWordChar (s.getD (i - 1) ' ')))
  && !(isWordChar (s.getD (i + 8) ' '))

/-- `re.search` for one of the two 8-character patterns: the leftmost
position where the pattern (with its boundaries) matches. -/
def reSearch (m8 : List Char → Bool) (s : List Char) : Option (List Char) :=
  (List.range s.length).findSome? fun i =>
    if boundedAt m8 s i then some ((s.drop i).take 8) else none

/-- `STRICT_NMC_RE.search`. -/
def strictSearch (s : List Char) : Option (List Char) := reSearch matches8Strict s

/-- `LOOSE_8_RE.search`. -/
def looseSearch (s : List Char) : Option (List Char) := reSearch matches8Loose s

/-- Scanning loop of `re.findall` for an 8-character pattern: leftmost
matches, non-overlapping, resuming after each match.  `fuel` only bounds the
recursion and never binds for the initial value `s.length + 1`. -/
def reFindallGo (m8 : List Char → Bool) (s : List Char) : Nat → Nat → List (List Char)
  | 0, _ => []
  | fuel + 1, i =>
    if i ≥ s.length then []
    else if boundedAt m8 s i then
      ((s.drop i).take 8) :: reFindallGo m8 s fuel (i + 8)
    else reFindallGo m8 s fuel (i + 1)

/-- `re.findall` for one of the 8-character patterns. -/
def reFindall (m8 : List Char → Bool) (s : List Char) : List (List Char) :=
  reFindallGo m8 s (s.length + 1) 0

/-- Python `str.find`: index of the leftmost occurrence of `needle`, if any. -/
def strFind (hay needle : List Char) : Option Nat :=
  (List.range (hay.length + 1)).findSome? fun i =>
    if needle.isPrefixOf (hay.drop i) then some i else none

/-- Python `needle in hay` substring test. -/
def containsSub (hay needle : List Char) : Bool := (strFind hay needle).isSome

/-- Character class `[A-Z0-9]` of the token-ish pattern (compiled without
`re.I` in the source). -/
def alnumUpper (c : Char) : Bool :=
  ('A' ≤ c && c ≤ 'Z') || isDig c

/-- Scanning loop of `re.findall(r"[A-Z0-9]\x7b7,12\x7d", w)`: at each
position, greedily match 7 to 12 class characters; resume after a match;
a maximal class run shorter than 7 yields nothing anywhere inside it. -/
def tokenishGo : Nat → List Char → List (List Char)
  | 0, _ => []
  | _, [] => []
  | fuel + 1, c :: rest =>
    if alnumUpper c then
      let run := (c :: rest).takeWhile alnumUpper
      if 7 ≤ run.length then
        run.take 12 :: tokenishGo fuel ((c :: rest).drop (run.take 12).length)
      else tokenishGo fuel ((c :: rest).drop run.length)
    else tokenishGo fuel rest

/-- `re.findall(r"[A-Z0-9]\x7b7,12\x7d", w)`. -/
def tokenish (w : List Char) : List (List Char) := tokenishGo (w.length + 1) w

/-- The 8-character-window tier of `_clean_and_validate`: for each start
offset in `range(0, min(len(s) - 7, 16))`, positional repair of the window
followed by strict validation, first success wins. -/
def windowSearch (s : List Char) : Option (List Char) :=
  if 8 ≤ s.length then
    (List.range (min (s.length - 7) 16)).findSome? fun start =>
      let chunk := (s.drop start).take 8
      if chunk.length ≠ 8 then none
      else
        let fixed := fix_by_position chunk
        if validate_strict fixed then some fixed else none
  else none

/-- `_clean_and_validate`: normalize, then (1) direct strict match, (2)
8-character windows with positional repair, (3) loose match with repair;
`None` when the normalized string is empty or every tier fails. -/
def clean_and_validate (raw : List Char) : Option (List Char) :=
  let s := normalize_token raw
  if s = [] then none
  else
    match strictSearch s with
    | some m => some (upper m)
    | none =>
      match windowSearch s with
      | some fixed => some fixed
      | none =>
        match looseSearch s with
        | some m2 =>
          let fixed := fix_by_position (upper m2)
          if validate_strict fixed then some fixed else none
        | none => none

-- --- the anchor phrases of ANCHOR_RE --------------------------------------

def wNMC : List Char := ['N', 'M', 'C']

def wPIN : List Char := ['P', 'I', 'N']

def wNUMBER : List Char := ['N', 'U', 'M', 'B', 'E', 'R']

def wNO : List Char := ['N', 'O']

def wREGISTRATION : List Char :=
  ['R', 'E', 'G', 'I', 'S', 'T', 'R', 'A', 'T', 'I', 'O', 'N']

def wPERSONAL : List Char := ['P', 'E', 'R', 'S', 'O', 'N', 'A', 'L']

def wIDENTIFICATION : List Char :=
  ['I', 'D', 'E', 'N', 'T', 'I', 'F', 'I', 'C', 'A', 'T', 'I', 'O', 'N']

/-- Match a literal word case-insensitively (`re.I`), returning the rest of
the input after it. -/
def litU : List Char → List Char → Option (List Char)
  | [], s => some s
  | _ :: _, [] => none
  | p :: ps, c :: s => if upChar c = p then litU ps s else none

/-- Greedily consume `\s*`. -/
def skipWS (s : List Char) : List Char := s.dropWhile isSpaceChar

/-- Match a sequence of literal words separated by `\s*` (the shape of every
`ANCHOR_RE` alternative), returning the rest of the input. -/
def matchPhrase : List (List Char) → List Char → Option (List Char)
  | [], s => some s
  | [w], s => litU w s
  | w :: ws, s =>
    match litU w s with
    | none => none
    | some r => matchPhrase ws (skipWS r)

/-- The trailing `\.?` of the `PIN NO.` alternative. -/
def optDot : List Char → List Char
  | '.' :: r => r
  | r => r

/-- One attempt of `ANCHOR_RE` at the current position: the nine
alternatives in their source order (Python alternation is ordered), each
returning the input remaining after the match. -/
def anchorMatch (s : List Char) : Option (List Char) :=
  matchPhrase [wNMC, wPIN] s <|>
  matchPhrase [wNMC, wPIN, wNUMBER] s <|>
  matchPhrase [wPIN, wNUMBER] s <|>
  (matchPhrase [wPIN, wNO] s).map optDot <|>
  matchPhrase [wPIN, [Char.ofNat 35]] s <|>
  matchPhrase [wPIN, [':']] s <|>
  matchPhrase [wREGISTRATION, wNUMBER] s <|>
  matchPhrase [wNMC, wREGISTRATION, wNUMBER] s <|>
  matchPhrase [wPERSONAL, wIDENTIFICATION, wNUMBER] s

/-- `ANCHOR_RE.finditer` paired with the source's window slicing: for every
match (leftmost first, non-overlapping, resuming at each match end), the 120
characters following it.  `fuel` never binds for `T.length + 1`. -/
def anchorWindowsGo : Nat → List Char → List (List Char)
  | 0, _ => []
  | _, [] => []
  | fuel + 1, c :: rest =>
    match anchorMatch (c :: rest) with
    | some r => r.take 120 :: anchorWindowsGo fuel r
    | none => anchorWindowsGo fuel rest

/-- The post-label windows visited by the anchor loop of
`_extract_from_text`, in visit order. -/
def anchorWindows (T : List Char) : List (List Char) :=
  anchorWindowsGo (T.length + 1) T

/-- The body of the anchor loop of `_extract_from_text` for one window:
strict match (0.99), else loose match cleaned (0.98), else the first three
token-ish chunks cleaned (0.96). -/
def tryWindow (w : List Char) : Option (List Char × ℚ) :=
  match strictSearch w with
  | some m => some (upper m, 99 / 100)
  | none =>
    let fromLoose :=
      match looseSearch w with
      | some ml =>
        match clean_and_validate ml with
        | some pin => some (pin, (98 : ℚ) / 100)
        | none => none
      | none => none
    match fromLoose with
    | some r => some r
    | none =>
      ((tokenish w).take 3).findSome? fun tok =>
        match clean_and_validate tok with
        | some pin => some (pin, (96 : ℚ) / 100)
        | none => none

/-- The whole anchor loop: first anchor window that yields anything wins. -/
def anchorScan (T : List Char) : Option (List Char × ℚ) :=
  (anchorWindows T).findSome? tryWindow

/-- The global loose tier of `_extract_from_text`: all loose candidates, the
ones with `NMC` within 80 characters first (0.92), then any valid one
(0.88). -/
def globalLoose (T : List Char) : Option (List Char × ℚ) :=
  let candidates := reFindall matches8Loose T
  if candidates = [] then none
  else
    let near :=
      candidates.findSome? fun cand =>
        match strFind T (upper cand) with
        | some idx =>
          let vicinity := (T.drop (idx - 80)).take (idx + 80 - (idx - 80))
          if containsSub vicinity wNMC then
            match clean_and_validate cand with
            | some pin => some (pin, (92 : ℚ) / 100)
            | none => none
          else none
        | none => none
    match near with
    | some r => some r
    | none =>
      candidates.findSome? fun cand =>
        match clean_and_validate cand with
        | some pin => some (pin, (88 : ℚ) / 100)
        | none => none

/-- `_extract_from_text`: anchor-first extraction, then global strict scan
(0.95), then the global loose tier; `(None, 0.0)` when empty or exhausted. -/
def extract_from_text (text : List Char) : Option (List Char) × ℚ :=
  if text = [] then (none, 0)
  else
    let T := upper text
    match anchorScan T with
    | some (pin, conf) => (some pin, conf)
    | none =>
      match strictSearch T with
      | some m2 => (some (upper m2), 95 / 100)
      | none =>
        match globalLoose T with
        | some (pin, conf) => (some pin, conf)
        | none => (none, 0)

-- --- vision fallback and top-level orchestration --------------------------

/-- A rendered page or image file: raw bytes plus a mime type. -/
abbrev Img := List Nat × List Char

/-- Default of `GEMINI_MODEL_FAST`. -/
def GEMINI_MODEL_FAST : List Char :=
  ['g', 'e', 'm', 'i', 'n', 'i', '-', '2', '.', '0', '-', 'f', 'l', 'a', 's', 'h']

/-- Default of `GEMINI_MODEL_STRONG`. -/
def GEMINI_MODEL_STRONG : List Char :=
  ['g', 'e', 'm', 'i', 'n', 'i', '-', '2', '.', '5', '-', 'p', 'r', 'o']

/-- The environment of one extraction call: module configuration plus the
behaviour of the remote-inference collaborator.

* `clientOK` models `_client is not None and types is not None` (false when
  the API key is missing, client construction raised, or the library is
  unavailable);
* `textPages` and `imagePages` model `NMC_PDF_TEXT_PAGES` and
  `NMC_PDF_IMAGE_PAGES` (the latter is consumed inside the page-rendering
  collaborator, whose output a `FileInput` carries directly);
* `visionCall images model` is the outcome of one `generate_content` call:
  `.error` for any raised exception (transport error, timeout, malformed
  input), `.ok` the `resp.text` attribute (`none` models a missing text). -/
structure Env where
  clientOK : Bool
  textPages : Int
  imagePages : Int
  visionCall : List Img → List Char → Except Unit (Option (List Char))

/-- One iteration of the model loop of `_gemini_extract`: call the model,
strip its response text, run `_clean_and_validate` on it; tier-fixed
confidence 0.90 for the fast model and 0.93 otherwise. -/
def geminiTry (env : Env) (images : List Img) (model : List Char) :
    Option (List Char × ℚ) :=
  match env.visionCall images model with
  | .error _ => none
  | .ok rtext =>
    let txt := pyStrip (rtext.getD [])
    match clean_and_validate txt with
    | some pin =>
      some (pin, if model = GEMINI_MODEL_FAST then 90 / 100 else (93 : ℚ) / 100)
    | none => none

/-- `_gemini_extract`: nothing without a configured client or with no
images; otherwise the fast then the strong model, first validated result
wins, any exception skipping to the next model. -/
def gemini_extract (env : Env) (images : List Img) :
    Option (List Char) × ℚ :=
  if env.clientOK = false ∨ images = [] then (none, 0)
  else
    match [GEMINI_MODEL_FAST, GEMINI_MODEL_STRONG].findSome? (geminiTry env images) with
    | some (pin, conf) => (some pin, conf)
    | none => (none, 0)

/-- What the filesystem and the ingestion collaborators yield for the input
path of one extraction call:

* `pdf pages images` — a path with suffix `.pdf`: `pages` is the outcome of
  `pdfplumber.open` (`.error` when opening raises) with, per page, the
  outcome of `page.extract_text() or ""` (`.error` when extraction raises
  mid-loop); `images` is what `_pdf_to_images` returns (that helper catches
  its own exceptions and returns the pages rendered so far);
* `nonPdf image content` — any other path: `image` is what
  `_file_to_image` returns (`none` for an unrecognized extension or a
  failed read), `content` the outcome of `path.read_text`. -/
inductive FileInput where
  | pdf (pages : Except Unit (List (Except Unit (List Char)))) (images : List Img)
  | nonPdf (image : Option Img) (content : Except Unit (List Char))

/-- Outcome of the page-by-page text phase of the PDF branch: an early
result, or the text to scan as a whole. -/
inductive PdfPhase where
  | found (pin : List Char) (conf : ℚ)
  | text (t : List Char)

/-- The page loop of the PDF branch of `extract_nmc_pin`: each non-empty
page is scanned as it is read and a hit returns immediately; pages that
yield nothing are accumulated; an extraction error anywhere discards the
accumulation (the source's `except` sets `text = ""`). -/
def pdfLoop : List (Except Unit (List Char)) → List (List Char) → PdfPhase
  | [], acc => .text (List.intercalate ['\n'] acc.reverse)
  | .error _ :: _, _ => .text []
  | .ok t :: rest, acc =>
    if t = [] then pdfLoop rest acc
    else
      match extract_from_text t with
      | (some pin, conf) => .found pin conf
      | (none, _) => pdfLoop rest (t :: acc)

/-- The record returned by `extract_nmc_pin`; `confidence` is the value of
the `"nmc_pin"` key of its `confidence` sub-dictionary. -/
structure ResultRec where
  ok : Bool
  nmc_pin : Option (List Char)
  confidence : ℚ
deriving DecidableEq, Repr

/-- `extract_nmc_pin`: the PDF branch (page-by-page text scan up to
`max(1, NMC_PDF_TEXT_PAGES)` pages, then the combined text, then vision on
the rendered pages), the image branch (vision on the single image), and the
text-file branch. -/
def extract_nmc_pin (env : Env) (file : FileInput) : ResultRec :=
  match file with
  | .pdf pagesE imgs =>
    let phase :=
      match pagesE with
      | .error _ => PdfPhase.text []
      | .ok pages => pdfLoop (pages.take (max 1 env.textPages).toNat) []
    match phase with
    | .found pin conf => ⟨true, some pin, conf⟩
    | .text text =>
      match extract_from_text text with
      | (some pin, conf) => ⟨true, some pin, conf⟩
      | (none, _) =>
        match gemini_extract env imgs with
        | (some pin2, conf2) => ⟨true, some pin2, conf2⟩
        | (none, _) => ⟨false, none, 0⟩
  | .nonPdf imgOpt contentE =>
    match imgOpt with
    | some img =>
      match gemini_extract env [img] with
      | (some pin3, conf3) => ⟨true, some pin3, conf3⟩
      | (none, _) => ⟨false, none, 0⟩
    | none =>
      let text :=
        match contentE with
        | .ok t => t
        | .error _ => []
      match extract_from_text text with
      | (pin4, conf4) => ⟨pin4.isSome, pin4, conf4⟩

-- --- statements taken from the specification's words ----------------------

/-- The structural pattern as §3 of the spec states it: exactly 8
characters — 2 digits, 1 letter of the 12-letter month allow-set, 4 digits,
1 letter of the 5-letter region allow-set (letter membership up to case, as
everywhere in this module). -/
def spec_valid_identifier (s : List Char) : Prop :=
  s.length = 8 ∧
  isDig (s.getD 0 ' ') = true ∧ isDig (s.getD 1 ' ') = true ∧
  monthOK (s.getD 2 ' ') = true ∧
  isDig (s.getD 3 ' ') = true ∧ isDig (s.getD 4 ' ') = true ∧
  isDig (s.getD 5 ' ') = true ∧ isDig (s.getD 6 ' ') = true ∧
  regionOK (s.getD 7 ' ') = true

/-- `wc` is `vc`, or an OCR-confusable letter whose `_DIGIT_FIX` image is
`vc`. -/
def digitRepairOK (wc vc : Char) : Prop :=
  wc = vc ∨ (vc = digitFix wc ∧ (wc = 'O' ∨ wc = 'I' ∨ wc = 'L' ∨ wc = 'S' ∨ wc = 'B'))

/-- `wc` is `vc`, or an OCR-confusable digit whose `_LETTER_FIX` image is
`vc`. -/
def letterRepairOK (wc vc : Char) : Prop :=
  wc = vc ∨ (vc = letterFix wc ∧ (wc = '0' ∨ wc = '1' ∨ wc = '5' ∨ wc = '8'))

/-- The window `w` equals the identifier `v` except for confusable
substitutions: digit-confusables at the six digit positions 0,1,3,4,5,6,
letter-confusables at the two letter positions 2,7. -/
def confusableWindow (w v : List Char) : Prop :=
  w.length = 8 ∧ v.length = 8 ∧
  digitRepairOK (w.getD 0 ' ') (v.getD 0 ' ') ∧
  digitRepairOK (w.getD 1 ' ') (v.getD 1 ' ') ∧
  letterRepairOK (w.getD 2 ' ') (v.getD 2 ' ') ∧
  digitRepairOK (w.getD 3 ' ') (v.getD 3 ' ') ∧
  digitRepairOK (w.getD 4 ' ') (v.getD 4 ' ') ∧
  digitRepairOK (w.getD 5 ' ') (v.getD 5 ' ') ∧
  digitRepairOK (w.getD 6 ' ') (v.getD 6 ' ') ∧
  letterRepairOK (w.getD 7 ' ') (v.getD 7 ' ')

instance (wc vc : Char) : Decidable (digitRepairOK wc vc) := by
  unfold digitRepairOK; exact inferInstance

instance (wc vc : Char) : Decidable (letterRepairOK wc vc) := by
  unfold letterRepairOK; exact inferInstance

instance (w v : List Char) : Decidable (confusableWindow w v) := by
  unfold confusableWindow; exact inferInstance

-- --- concrete inputs used by the literal scenarios and witnesses ----------

/-- The literal scenario input `NMC PIN: 23B0365O additional text`. -/
def textNmcPin : List Char :=
  ['N', 'M', 'C', ' ', 'P', 'I', 'N', ':', ' ', '2', '3', 'B', '0', '3', '6',
   '5', 'O', ' ', 'a', 'd', 'd', 'i', 't', 'i', 'o', 'n', 'a', 'l', ' ',
   't', 'e', 'x', 't']

/-- The literal scenario input `Registration Number O9BO112E`. -/
def textRegNum : List Char :=
  ['R', 'e', 'g', 'i', 's', 't', 'r', 'a', 't', 'i', 'o', 'n', ' ', 'N', 'u',
   'm', 'b', 'e', 'r', ' ', 'O', '9', 'B', 'O', '1', '1', '2', 'E']

/-- A text with a labelled identifier and a second bare valid identifier. -/
def textTwoPins : List Char :=
  ['N', 'M', 'C', ' ', 'P', 'I', 'N', ':', ' ', '2', '3', 'B', '0', '3', '6',
   '5', 'O', ' ', 'x', ' ', '1', '6', 'J', '0', '1', '5', '1', 'E']

/-- The post-label window of `textTwoPins` (120 characters after the first
anchor match, which ends after `NMC PIN`). -/
def windowTwoPins : List Char :=
  [':', ' ', '2', '3', 'B', '0', '3', '6', '5', 'O', ' ', 'X', ' ', '1', '6',
   'J', '0', '1', '5', '1', 'E']

def pin23B : List Char := ['2', '3', 'B', '0', '3', '6', '5', 'O']

def pin09 : List Char := ['0', '9', 'B', '0', '1', '1', '2', 'E']

def pin16J : List Char := ['1', '6', 'J', '0', '1', '5', '1', 'E']

/-- `09B0112E` with two letter-for-digit OCR confusions. -/
def winO9 : List Char := ['O', '9', 'B', 'O', '1', '1', '2', 'E']

/-- An environment with no configured vision client. -/
def env0 : Env := ⟨false, 8, 4, fun _ _ => .error ()⟩

/-- An environment whose fast model answers `16J0151E` and whose strong
model raises. -/
def env8 : Env :=
  ⟨true, 8, 4, fun _ model =>
    if model = GEMINI_MODEL_FAST then .ok (some pin16J) else .error ()⟩

/-- An empty image. -/
def imgBlank : Img := ([], [])

-- --- helper lemmas --------------------------------------------------------

theorem findSome_ex {α β : Type} {f : α → Option β} :
    ∀ {l : List α} {b : β}, l.findSome? f = some b → ∃ a, a ∈ l ∧ f a = some b := by
  intro l
  induction l with
  | nil => intro b h; simp [List.findSome?] at h
  | cons x xs ih =>
    intro b h
    cases hfx : f x with
    | some b2 =>
      simp only [List.findSome?, hfx] at h
      exact ⟨x, List.mem_cons_self x xs, by rw [hfx, h]⟩
    | none =>
      simp only [List.findSome?, hfx] at h
      obtain ⟨a, ha, hfa⟩ := ih h
      exact ⟨a, List.mem_cons_of_mem x ha, hfa⟩

theorem length8_shape {s : List Char} (h : s.length = 8) :
    ∃ c0 c1 c2 c3 c4 c5 c6 c7, s = [c0, c1, c2, c3, c4, c5, c6, c7] := by
  rcases s with _ | ⟨c0, _ | ⟨c1, _ | ⟨c2, _ | ⟨c3, _ | ⟨c4, _ | ⟨c5, _ | ⟨c6, _ | ⟨c7, _ | ⟨c8, t⟩⟩⟩⟩⟩⟩⟩⟩⟩
  all_goals simp only [List.length] at h
  all_goals first
    | omega
    | exact ⟨c0, c1, c2, c3, c4, c5, c6, c7, rfl⟩

theorem m8With_shape {month region : Char → Bool} {t : List Char}
    (h : matches8With month region t = true) :
    ∃ a b c d e f g h8, t = [a, b, c, d, e, f, g, h8] ∧
      isDig a = true ∧ isDig b = true ∧ month c = true ∧ isDig d = true ∧
      isDig e = true ∧ isDig f = true ∧ isDig g = true ∧ region h8 = true := by
  unfold matches8With at h
  split at h
  next a b c d e f g h8 =>
    simp only [Bool.and_eq_true] at h
    exact ⟨a, b, c, d, e, f, g, h8, rfl,
      h.1.1.1.1.1.1.1, h.1.1.1.1.1.1.2, h.1.1.1.1.1.2, h.1.1.1.1.2,
      h.1.1.1.2, h.1.1.2, h.1.2, h.2⟩
  next => exact absurd h (by simp)

theorem isDig_cases {c : Char} (h : isDig c = true) :
    c = '0' ∨ c = '1' ∨ c = '2' ∨ c = '3' ∨ c = '4' ∨
    c = '5' ∨ c = '6' ∨ c = '7' ∨ c = '8' ∨ c = '9' := by
  simpa [isDig, List.contains] using h

theorem monthOK_cases {c : Char} (h : monthOK c = true) :
    upChar c = 'A' ∨ upChar c = 'B' ∨ upChar c = 'C' ∨ upChar c = 'D' ∨
    upChar c = 'E' ∨ upChar c = 'F' ∨ upChar c = 'G' ∨ upChar c = 'H' ∨
    upChar c = 'I' ∨ upChar c = 'J' ∨ upChar c = 'K' ∨ upChar c = 'L' := by
  simpa [monthOK, List.contains] using h

theorem regionOK_cases {c : Char} (h : regionOK c = true) :
    upChar c = 'E' ∨ upChar c = 'S' ∨ upChar c = 'W' ∨
    upChar c = 'N' ∨ upChar c = 'O' := by
  simpa [regionOK, List.contains] using h

theorem isDig_upChar {c : Char} (h : isDig c = true) : isDig (upChar c) = true := by
  rcases isDig_cases h with h1 | h1 | h1 | h1 | h1 | h1 | h1 | h1 | h1 | h1 <;>
    rw [h1] <;> decide

theorem monthOK_upChar {c : Char} (h : monthOK c = true) :
    monthOK (upChar c) = true := by
  rcases monthOK_cases h with h1 | h1 | h1 | h1 | h1 | h1 | h1 | h1 | h1 | h1 | h1 | h1 <;>
    · simp only [monthOK]
      rw [h1]
      decide

theorem regionOK_upChar {c : Char} (h : regionOK c = true) :
    regionOK (upChar c) = true := by
  rcases regionOK_cases h with h1 | h1 | h1 | h1 | h1 <;>
    · simp only [regionOK]
      rw [h1]
      decide

theorem m8Strict_upper {m : List Char} (h : matches8Strict m = true) :
    matches8Strict (upper m) = true := by
  obtain ⟨a, b, c, d, e, f, g, h8, rfl, ha, hb, hc, hd, he, hf, hg, hh⟩ :=
    m8With_shape h
  simp only [upper, List.map, matches8Strict, matches8With, Bool.and_eq_true]
  exact ⟨⟨⟨⟨⟨⟨⟨isDig_upChar ha, isDig_upChar hb⟩, monthOK_upChar hc⟩,
    isDig_upChar hd⟩, isDig_upChar he⟩, isDig_upChar hf⟩, isDig_upChar hg⟩,
    regionOK_upChar hh⟩

theorem reSearch_m8 {m8 : List Char → Bool} {s t : List Char}
    (h : reSearch m8 s = some t) : m8 t = true := by
  obtain ⟨i, _, hfi⟩ := findSome_ex h
  split at hfi
  next hb =>
    cases hfi
    simp only [boundedAt, Bool.and_eq_true] at hb
    exact hb.1.1
  next => exact absurd hfi (by simp)

theorem windowSearch_valid {s f : List Char} (h : windowSearch s = some f) :
    validate_strict f = true := by
  unfold windowSearch at h
  split at h
  next =>
    obtain ⟨st, _, hfi⟩ := findSome_ex h
    dsimp only at hfi
    split at hfi
    next => exact absurd hfi (by simp)
    next =>
      split at hfi
      next hval => cases hfi; exact hval
      next => exact absurd hfi (by simp)
  next => exact absurd h (by simp)

theorem clean_valid {raw p : List Char} (h : clean_and_validate raw = some p) :
    validate_strict p = true := by
  simp only [clean_and_validate] at h
  split at h
  next => exact absurd h (by simp)
  next =>
    split at h
    next m hm => cases h; exact m8Strict_upper (reSearch_m8 hm)
    next =>
      split at h
      next f2 hw => cases h; exact windowSearch_valid hw
      next =>
        split at h
        next m2 hl =>
          split at h
          next hv => cases h; exact hv
          next => exact absurd h (by simp)
        next => exact absurd h (by simp)

theorem tokenishTier_valid {w p : List Char} {c : ℚ}
    (h : (((tokenish w).take 3).findSome? fun tok =>
        match clean_and_validate tok with
        | some pin => some (pin, (96 : ℚ) / 100)
        | none => none) = some (p, c)) : validate_strict p = true := by
  obtain ⟨tok, _, hftok⟩ := findSome_ex h
  cases hct : clean_and_validate tok with
  | some pin =>
    simp only [hct, Option.some.injEq, Prod.mk.injEq] at hftok
    rw [← hftok.1]
    exact clean_valid hct
  | none =>
    simp only [hct] at hftok
    exact Option.noConfusion hftok

theorem tryWindow_valid {w p : List Char} {c : ℚ}
    (h : tryWindow w = some (p, c)) : validate_strict p = true := by
  unfold tryWindow at h
  cases hs : strictSearch w with
  | some m =>
    simp only [hs, Option.some.injEq, Prod.mk.injEq] at h
    rw [← h.1]
    exact m8Strict_upper (reSearch_m8 hs)
  | none =>
    simp only [hs] at h
    cases hl : looseSearch w with
    | some ml =>
      simp only [hl] at h
      cases hc : clean_and_validate ml with
      | some pin =>
        simp only [hc, Option.some.injEq, Prod.mk.injEq] at h
        rw [← h.1]
        exact clean_valid hc
      | none =>
        simp only [hc] at h
        exact tokenishTier_valid h
    | none =>
      simp only [hl] at h
      exact tokenishTier_valid h

theorem anchorScan_valid {T p : List Char} {c : ℚ}
    (h : anchorScan T = some (p, c)) : validate_strict p = true := by
  obtain ⟨w, _, hw⟩ := findSome_ex h
  exact tryWindow_valid hw

theorem globalLoose_valid {T p : List Char} {c : ℚ}
    (h : globalLoose T = some (p, c)) : validate_strict p = true := by
  simp only [globalLoose] at h
  split at h
  next => exact absurd h (by simp)
  next =>
    split at h
    next r hr =>
      cases h
      obtain ⟨cand, _, hfc⟩ := findSome_ex hr
      split at hfc
      next idx hidx =>
        split at hfc
        next =>
          split at hfc
          next pin hpin =>
            simp only [Option.some.injEq, Prod.mk.injEq] at hfc
            rw [← hfc.1]
            exact clean_valid hpin
          next => exact absurd hfc (by simp)
        next => exact absurd hfc (by simp)
      next => exact absurd hfc (by simp)
    next =>
      obtain ⟨cand, _, hfc⟩ := findSome_ex h
      split at hfc
      next pin hpin =>
        simp only [Option.some.injEq, Prod.mk.injEq] at hfc
        rw [← hfc.1]
        exact clean_valid hpin
      next => exact absurd hfc (by simp)

/-- Well-formedness of a `(pin, confidence)` pair as produced by the text
and vision strategies: a found pin is strictly valid, and a miss carries
confidence 0. -/
def GoodPair (r : Option (List Char) × ℚ) : Prop :=
  (∀ p, r.1 = some p → validate_strict p = true) ∧ (r.1 = none → r.2 = 0)

theorem extract_from_text_good (t : List Char) :
    GoodPair (extract_from_text t) := by
  simp only [extract_from_text]
  split
  next => exact ⟨fun p hp => absurd hp (by simp), fun _ => rfl⟩
  next =>
    split
    next pin conf hsc =>
      exact ⟨fun p hp => by
        cases hp
        exact anchorScan_valid hsc, fun hn => absurd hn (by simp)⟩
    next =>
      split
      next m2 hm2 =>
        exact ⟨fun p hp => by
          cases hp
          exact m8Strict_upper (reSearch_m8 hm2), fun hn => absurd hn (by simp)⟩
      next =>
        split
        next pin conf hgl =>
          exact ⟨fun p hp => by
            cases hp
            exact globalLoose_valid hgl, fun hn => absurd hn (by simp)⟩
        next => exact ⟨fun p hp => absurd hp (by simp), fun _ => rfl⟩

theorem gemini_extract_good (env : Env) (images : List Img) :
    GoodPair (gemini_extract env images) := by
  simp only [gemini_extract]
  split
  next => exact ⟨fun p hp => absurd hp (by simp), fun _ => rfl⟩
  next =>
    split
    next pin conf hfs =>
      refine ⟨fun p hp => ?_, fun hn => absurd hn (by simp)⟩
      cases hp
      obtain ⟨model, _, hmod⟩ := findSome_ex hfs
      simp only [geminiTry] at hmod
      split at hmod
      next => exact absurd hmod (by simp)
      next rtext hrt =>
        split at hmod
        next pin2 hpin2 =>
          simp only [Option.some.injEq, Prod.mk.injEq] at hmod
          rw [← hmod.1]
          exact clean_valid hpin2
        next => exact absurd hmod (by simp)
    next => exact ⟨fun p hp => absurd hp (by simp), fun _ => rfl⟩

theorem pdfLoop_found_valid :
    ∀ (pages : List (Except Unit (List Char))) (acc : List (List Char))
      (pin : List Char) (conf : ℚ),
      pdfLoop pages acc = .found pin conf → validate_strict pin = true := by
  intro pages
  induction pages with
  | nil => intro acc pin conf h; exact absurd h (by simp [pdfLoop])
  | cons e rest ih =>
    intro acc pin conf h
    cases e with
    | error u => exact absurd h (by simp [pdfLoop])
    | ok t =>
      rw [pdfLoop] at h
      split at h
      next => exact ih acc pin conf h
      next =>
        split at h
        next p2 c2 hext =>
          cases h
          exact (extract_from_text_good t).1 _ (by rw [hext])
        next => exact ih _ pin conf h

/-- Case analysis of the public operation: every call returns either a
success record carrying a strictly valid pin, or the literal negative
record, for every collaborator behaviour. -/
theorem extract_nmc_pin_spec (env : Env) (file : FileInput) :
    (∃ p c, extract_nmc_pin env file = ⟨true, some p, c⟩ ∧
      validate_strict p = true) ∨
    extract_nmc_pin env file = ⟨false, none, 0⟩ := by
  cases file with
  | pdf pagesE imgs =>
    simp only [extract_nmc_pin]
    split
    next pin conf hph =>
      refine Or.inl ⟨pin, conf, rfl, ?_⟩
      cases pagesE with
      | error u => exact absurd hph (by simp)
      | ok pages =>
        simp only at hph
        exact pdfLoop_found_valid _ _ _ _ hph
    next txt hph =>
      split
      next pin conf hext =>
        exact Or.inl ⟨pin, conf, rfl, (extract_from_text_good txt).1 _ (by rw [hext])⟩
      next =>
        split
        next pin2 conf2 hgem =>
          exact Or.inl ⟨pin2, conf2, rfl,
            (gemini_extract_good env imgs).1 _ (by rw [hgem])⟩
        next => exact Or.inr rfl
  | nonPdf imgOpt contentE =>
    cases imgOpt with
    | some img =>
      simp only [extract_nmc_pin]
      split
      next pin3 conf3 hgem =>
        exact Or.inl ⟨pin3, conf3, rfl,
          (gemini_extract_good env [img]).1 _ (by rw [hgem])⟩
      next => exact Or.inr rfl
    | none =>
      simp only [extract_nmc_pin]
      have key : ∀ u : List Char,
          (∃ p c, (match extract_from_text u with
            | (pin4, conf4) => (⟨pin4.isSome, pin4, conf4⟩ : ResultRec)) =
              ⟨true, some p, c⟩ ∧ validate_strict p = true) ∨
          (match extract_from_text u with
            | (pin4, conf4) => (⟨pin4.isSome, pin4, conf4⟩ : ResultRec)) =
              ⟨false, none, 0⟩ := by
        intro u
        cases hE : extract_from_text u with
        | mk e1 e2 =>
          cases e1 with
          | some p =>
            exact Or.inl ⟨p, e2, rfl, (extract_from_text_good u).1 _ (by rw [hE])⟩
          | none =>
            have h2 := (extract_from_text_good u).2
            rw [hE] at h2
            have h3 : e2 = 0 := h2 rfl
            rw [h3]
            exact Or.inr rfl
      exact key _

-- --- claim theorems -------------------------------------------------------

/-- C1: result-record invariant of `extract_nmc_pin` — for every input and
every collaborator behaviour, if `ok` is true then `nmc_pin` is present and
passes `_validate_strict`, and if `ok` is false then `nmc_pin` is null and
the confidence value is 0.0. -/
theorem C1_result_record_invariant (env : Env) (file : FileInput) :
    ((extract_nmc_pin env file).ok = true →
      ∃ p, (extract_nmc_pin env file).nmc_pin = some p ∧
        validate_strict p = true) ∧
    ((extract_nmc_pin env file).ok = false →
      (extract_nmc_pin env file).nmc_pin = none ∧
      (extract_nmc_pin env file).confidence = 0) := by
  rcases extract_nmc_pin_spec env file with ⟨p, c, heq, hv⟩ | heq
  · rw [heq]
    exact ⟨fun _ => ⟨p, rfl, hv⟩, fun hfalse => by simp at hfalse⟩
  · rw [heq]
    exact ⟨fun htrue => by simp at htrue, fun _ => ⟨rfl, rfl⟩⟩

/-- Witness for C1 at a concrete text file containing a labelled pin. -/
theorem C1_result_record_invariant_witness :
    ∃ p, (extract_nmc_pin env0 (.nonPdf none (.ok textNmcPin))).nmc_pin = some p ∧
      validate_strict p = true :=
  (C1_result_record_invariant env0 (.nonPdf none (.ok textNmcPin))).1 (by decide)

/-- C2: total, exception-free extraction — for every input file and every
behaviour of the ingestion and vision collaborators (including raising,
modelled as the `.error` outcomes quantified over here), `extract_nmc_pin`
returns a result record: either a success carrying a validated pin, or the
literal negative record; moreover a raising PDF reader with no rendered
pages, and a raising vision call on an image file, are each absorbed into
the normal negative record. -/
theorem C2_total_exception_free (env : Env) (file : FileInput) :
    ((∃ p c, extract_nmc_pin env file = ⟨true, some p, c⟩ ∧
        validate_strict p = true) ∨
      extract_nmc_pin env file = ⟨false, none, 0⟩) ∧
    extract_nmc_pin env (.pdf (.error ()) []) = ⟨false, none, 0⟩ ∧
    extract_nmc_pin ⟨env.clientOK, env.textPages, env.imagePages, fun _ _ => .error ()⟩
      (.nonPdf (some imgBlank) (.error ())) = ⟨false, none, 0⟩ := by
  refine ⟨extract_nmc_pin_spec env file, ?_, ?_⟩
  · simp only [extract_nmc_pin]
    have hg : gemini_extract env [] = (none, 0) := by
      unfold gemini_extract
      rw [if_pos (Or.inr rfl)]
    simp only [show extract_from_text [] = (none, 0) from rfl, hg]
  · simp only [extract_nmc_pin]
    by_cases hc : env.clientOK = false
    · have hg : gemini_extract
          ⟨env.clientOK, env.textPages, env.imagePages, fun _ _ => .error ()⟩
          [imgBlank] = (none, 0) := by
        unfold gemini_extract
        rw [if_pos (Or.inl hc)]
      simp only [hg]
    · have hg : gemini_extract
          ⟨env.clientOK, env.textPages, env.imagePages, fun _ _ => .error ()⟩
          [imgBlank] = (none, 0) := by
        unfold gemini_extract
        rw [if_neg]
        · simp [List.findSome?, geminiTry]
        · rintro (h | h)
          · exact hc h
          · exact List.noConfusion h
      simp only [hg]

/-- C3: validator exactness — `_validate_strict` accepts exactly the strings
matching the structural pattern (2 digits, a month letter A–L, 4 digits, a
region letter E/S/W/N/O), and rejects every other length or per-position
class violation. -/
theorem C3_validator_exactness (s : List Char) :
    validate_strict s = true ↔ spec_valid_identifier s := by
  constructor
  · intro h
    obtain ⟨a, b, c, d, e, f, g, h8, rfl, ha, hb, hc, hd, he, hf, hg, hh⟩ :=
      m8With_shape h
    exact ⟨rfl, ha, hb, hc, hd, he, hf, hg, hh⟩
  · rintro ⟨hlen, h0, h1, h2, h3, h4, h5, h6, h7⟩
    obtain ⟨c0, c1, c2, c3, c4, c5, c6, c7, rfl⟩ := length8_shape hlen
    simp only [validate_strict, matches8Strict, matches8With, Bool.and_eq_true]
    exact ⟨⟨⟨⟨⟨⟨⟨h0, h1⟩, h2⟩, h3⟩, h4⟩, h5⟩, h6⟩, h7⟩

/-- Witness for C3 at the concrete identifier `23B0365O`. -/
theorem C3_validator_exactness_witness : spec_valid_identifier pin23B :=
  (C3_validator_exactness pin23B).mp (by decide)

theorem digitFix_of_digit {a : Char} (h : isDig a = true) : digitFix a = a := by
  rcases isDig_cases h with h1 | h1 | h1 | h1 | h1 | h1 | h1 | h1 | h1 | h1 <;>
    · subst h1
      decide

theorem digitRepair_fix {a a2 : Char} (hr : digitRepairOK a a2)
    (hd : isDig a2 = true) : digitFix a = a2 := by
  rcases hr with rfl | ⟨rfl, _⟩
  · exact digitFix_of_digit hd
  · rfl

theorem letterFix_of_notKey {c : Char} (h0 : c ≠ '0') (h1 : c ≠ '1')
    (h5 : c ≠ '5') (h8 : c ≠ '8') : letterFix c = c := by
  unfold letterFix
  rw [if_neg h0, if_neg h1, if_neg h5, if_neg h8]

theorem letterRepair_fix_month {c c2 : Char} (hr : letterRepairOK c c2)
    (hm : monthOK c2 = true) : letterFix c = c2 := by
  rcases hr with rfl | ⟨rfl, _⟩
  · refine letterFix_of_notKey ?_ ?_ ?_ ?_ <;>
      · rintro rfl
        exact absurd hm (by decide)
  · rfl

theorem letterRepair_fix_region {c c2 : Char} (hr : letterRepairOK c c2)
    (hm : regionOK c2 = true) : letterFix c = c2 := by
  rcases hr with rfl | ⟨rfl, _⟩
  · refine letterFix_of_notKey ?_ ?_ ?_ ?_ <;>
      · rintro rfl
        exact absurd hm (by decide)
  · rfl

/-- C4: positional repair — `_fix_by_position` replaces each confusable
letter O/I/L/S/B by its digit at the six digit positions and each confusable
digit 0/1/5/8 by its letter at the two letter positions (all other
characters unchanged, as the table equations and the identity cases of the
per-position relation state); consequently any 8-character window equal to a
strictly valid identifier up to such confusions repairs to exactly that
identifier, which then validates. -/
theorem C4_positional_repair :
    (digitFix 'O' = '0' ∧ digitFix 'I' = '1' ∧ digitFix 'L' = '1' ∧
     digitFix 'S' = '5' ∧ digitFix 'B' = '8' ∧
     letterFix '0' = 'O' ∧ letterFix '1' = 'I' ∧ letterFix '5' = 'S' ∧
     letterFix '8' = 'B') ∧
    ∀ w v, confusableWindow w v → validate_strict v = true →
      fix_by_position w = v ∧ validate_strict (fix_by_position w) = true := by
  refine ⟨by decide, ?_⟩
  rintro w v ⟨hw8, hv8, p0, p1, p2, p3, p4, p5, p6, p7⟩ hv
  obtain ⟨a, b, c, d, e, f, g, h8, rfl⟩ := length8_shape hw8
  obtain ⟨a2, b2, c2, d2, e2, f2, g2, i2, rfl⟩ := length8_shape hv8
  simp only [validate_strict, matches8Strict, matches8With, Bool.and_eq_true] at hv
  obtain ⟨⟨⟨⟨⟨⟨⟨ha, hb⟩, hc⟩, hd⟩, he⟩, hf⟩, hg⟩, hh⟩ := hv
  simp only [List.getD_cons_zero, List.getD_cons_succ] at p0 p1 p2 p3 p4 p5 p6 p7
  have hfix : fix_by_position [a, b, c, d, e, f, g, h8] =
      [a2, b2, c2, d2, e2, f2, g2, i2] := by
    show [digitFix a, digitFix b, letterFix c, digitFix d, digitFix e,
      digitFix f, digitFix g, letterFix h8] = [a2, b2, c2, d2, e2, f2, g2, i2]
    rw [digitRepair_fix p0 ha, digitRepair_fix p1 hb,
      letterRepair_fix_month p2 hc, digitRepair_fix p3 hd,
      digitRepair_fix p4 he, digitRepair_fix p5 hf, digitRepair_fix p6 hg,
      letterRepair_fix_region p7 hh]
  refine ⟨hfix, ?_⟩
  rw [hfix]
  simp only [validate_strict, matches8Strict, matches8With, Bool.and_eq_true]
  exact ⟨⟨⟨⟨⟨⟨⟨ha, hb⟩, hc⟩, hd⟩, he⟩, hf⟩, hg⟩, hh⟩

/-- Witness for C4: `O9BO112E` repairs to the valid `09B0112E`. -/
theorem C4_positional_repair_witness :
    fix_by_position winO9 = pin09 ∧
    validate_strict (fix_by_position winO9) = true :=
  C4_positional_repair.2 winO9 pin09 (by decide) (by decide)

/-- C5: tier priority of `_clean_and_validate` — a direct strict match in
the normalized input is returned as-is (never a repaired value); with no
direct match the windowed-repair tier decides; with neither, the loose-match
tier's repaired-and-validated value decides. -/
theorem C5_clean_tier_priority (raw : List Char) :
    (∀ m, strictSearch (normalize_token raw) = some m →
      clean_and_validate raw = some (upper m)) ∧
    (strictSearch (normalize_token raw) = none →
      (∀ f, windowSearch (normalize_token raw) = some f →
        clean_and_validate raw = some f) ∧
      (windowSearch (normalize_token raw) = none →
        ∀ l, looseSearch (normalize_token raw) = some l →
          clean_and_validate raw =
            (if validate_strict (fix_by_position (upper l)) = true then
              some (fix_by_position (upper l)) else none))) := by
  by_cases hs0 : normalize_token raw = []
  · constructor
    · intro m hm
      rw [hs0] at hm
      rw [show strictSearch [] = none from rfl] at hm
      exact Option.noConfusion hm
    · intro _
      constructor
      · intro f hf
        rw [hs0] at hf
        rw [show windowSearch [] = none from rfl] at hf
        exact Option.noConfusion hf
      · intro _ l hl
        rw [hs0] at hl
        rw [show looseSearch [] = none from rfl] at hl
        exact Option.noConfusion hl
  · constructor
    · intro m hm
      simp only [clean_and_validate, if_neg hs0, hm]
    · intro hsn
      constructor
      · intro f hf
        simp only [clean_and_validate, if_neg hs0, hsn, hf]
      · intro hwn l hl
        simp only [clean_and_validate, if_neg hs0, hsn, hwn, hl]

/-- Witness for C5: a bare valid identifier is returned by the direct tier. -/
theorem C5_clean_tier_priority_witness :
    clean_and_validate pin23B = some (upper pin23B) :=
  (C5_clean_tier_priority pin23B).1 pin23B (by decide)

/-- C6: anchor preference — whatever else the text contains (in particular a
second valid structural match away from any label), when the window after
the first label-phrase match holds a strict match, `_extract_from_text`
returns exactly that match with confidence 0.99, and when it holds only a
loose match that cleans to a pin, that pin with confidence 0.98; the
anchored result always pre-empts the global scan. -/
theorem C6_anchor_preference (text w : List Char)
    (hw : (anchorWindows (upper text)).head? = some w) :
    (∀ m, strictSearch w = some m →
      extract_from_text text = (some (upper m), 99 / 100)) ∧
    (strictSearch w = none →
      ∀ l p, looseSearch w = some l → clean_and_validate l = some p →
        extract_from_text text = (some p, 98 / 100)) := by
  have htext : ¬text = [] := by
    rintro rfl
    rw [show anchorWindows (upper []) = [] from rfl] at hw
    exact Option.noConfusion hw
  obtain ⟨ws, hws⟩ : ∃ ws, anchorWindows (upper text) = w :: ws := by
    cases hA : anchorWindows (upper text) with
    | nil =>
      rw [hA] at hw
      exact Option.noConfusion hw
    | cons x xs =>
      rw [hA] at hw
      simp only [List.head?, Option.some.injEq] at hw
      exact ⟨xs, by rw [hw]⟩
  constructor
  · intro m hm
    have htw : tryWindow w = some (upper m, 99 / 100) := by
      unfold tryWindow
      simp only [hm]
    have hscan : anchorScan (upper text) = some (upper m, 99 / 100) := by
      unfold anchorScan
      rw [hws]
      simp only [List.findSome?, htw]
    simp only [extract_from_text, if_neg htext, hscan]
  · intro hsn l p hl hp
    have htw : tryWindow w = some (p, 98 / 100) := by
      unfold tryWindow
      simp only [hsn, hl, hp]
    have hscan : anchorScan (upper text) = some (p, 98 / 100) := by
      unfold anchorScan
      rw [hws]
      simp only [List.findSome?, htw]
    simp only [extract_from_text, if_neg htext, hscan]

/-- Witness for C6 on a text holding a labelled pin and a second bare one. -/
theorem C6_anchor_preference_witness :
    extract_from_text textTwoPins = (some (upper pin23B), 99 / 100) :=
  (C6_anchor_preference textTwoPins windowTwoPins (by decide)).1 pin23B (by decide)

/-- C7: the literal end-to-end text scenarios — `NMC PIN: 23B0365O
additional text` yields `23B0365O` at 0.99, and `Registration Number
O9BO112E` yields the repaired `09B0112E` at a confidence of at least
0.96. -/
theorem C7_literal_scenarios :
    extract_from_text textNmcPin = (some pin23B, 99 / 100) ∧
    ∃ c, extract_from_text textRegNum = (some pin09, c) ∧ (96 : ℚ) / 100 ≤ c :=
  ⟨rfl, ⟨96 / 100, rfl, le_refl _⟩⟩

/-- C8: the vision-fallback contract — any pin `_gemini_extract` returns
went through `_clean_and_validate` and is strictly valid, with a tier-fixed
confidence of 0.90 or 0.93; a fast-model response whose cleaned text
validates wins at 0.90 without consulting the strong model; and when the
fast tier produces nothing, a strong-model response whose cleaned text
validates wins at 0.93. -/
theorem C8_vision_contract :
    (∀ (env : Env) images p c, gemini_extract env images = (some p, c) →
      validate_strict p = true ∧ (c = 90 / 100 ∨ c = (93 : ℚ) / 100)) ∧
    (∀ (env : Env) images rt p, env.clientOK = true → images ≠ [] →
      env.visionCall images GEMINI_MODEL_FAST = .ok rt →
      clean_and_validate (pyStrip (rt.getD [])) = some p →
      gemini_extract env images = (some p, 90 / 100)) ∧
    (∀ (env : Env) images rt p, env.clientOK = true → images ≠ [] →
      geminiTry env images GEMINI_MODEL_FAST = none →
      env.visionCall images GEMINI_MODEL_STRONG = .ok rt →
      clean_and_validate (pyStrip (rt.getD [])) = some p →
      gemini_extract env images = (some p, (93 : ℚ) / 100)) := by
  refine ⟨?_, ?_, ?_⟩
  · intro env images p c h
    unfold gemini_extract at h
    split at h
    next => simp at h
    next =>
      split at h
      next pin conf hfs =>
        simp only [Option.some.injEq, Prod.mk.injEq] at h
        obtain ⟨rfl, rfl⟩ := h
        obtain ⟨model, _, hmod⟩ := findSome_ex hfs
        unfold geminiTry at hmod
        cases hvc : env.visionCall images model with
        | error u =>
          rw [hvc] at hmod
          exact Option.noConfusion hmod
        | ok rtext =>
          rw [hvc] at hmod
          cases hcl : clean_and_validate (pyStrip (rtext.getD [])) with
          | some pin2 =>
            simp only [hcl, Option.some.injEq, Prod.mk.injEq] at hmod
            obtain ⟨h1, h2⟩ := hmod
            refine ⟨by rw [← h1]; exact clean_valid hcl, ?_⟩
            rw [← h2]
            split
            · exact Or.inl rfl
            · exact Or.inr rfl
          | none =>
            simp only [hcl] at hmod
            exact Option.noConfusion hmod
      next => simp at h
  · intro env images rt p hc hne hvc hclean
    have hcond : ¬(env.clientOK = false ∨ images = []) := by
      rintro (h | h)
      · rw [hc] at h
        exact Bool.noConfusion h
      · exact hne h
    have htry : geminiTry env images GEMINI_MODEL_FAST = some (p, 90 / 100) := by
      unfold geminiTry
      rw [hvc]
      simp [hclean]
    unfold gemini_extract
    rw [if_neg hcond]
    simp only [List.findSome?, htry]
  · intro env images rt p hc hne hfast hvc hclean
    have hcond : ¬(env.clientOK = false ∨ images = []) := by
      rintro (h | h)
      · rw [hc] at h
        exact Bool.noConfusion h
      · exact hne h
    have htry : geminiTry env images GEMINI_MODEL_STRONG =
        some (p, (93 : ℚ) / 100) := by
      unfold geminiTry
      rw [hvc]
      simp [hclean, show ¬(GEMINI_MODEL_STRONG = GEMINI_MODEL_FAST) from by decide]
    unfold gemini_extract
    rw [if_neg hcond]
    simp only [List.findSome?, hfast, htry]

/-- Witness for C8: a fast-model response `16J0151E` wins at 0.90. -/
theorem C8_vision_contract_witness :
    gemini_extract env8 [imgBlank] = (some pin16J, 90 / 100) :=
  C8_vision_contract.2.1 env8 [imgBlank] (some pin16J) pin16J rfl
    (by decide) rfl (by decide)

theorem pdfLoop_skip :
    ∀ (pre : List (Except Unit (List Char))) (acc : List (List Char)),
      (∀ e ∈ pre, ∃ u, e = Except.ok u ∧
        (u = [] ∨ (extract_from_text u).1 = none)) →
      ∀ l, ∃ acc2, pdfLoop (pre ++ l) acc = pdfLoop l acc2 := by
  intro pre
  induction pre with
  | nil => exact fun acc _ l => ⟨acc, rfl⟩
  | cons e pre ih =>
    intro acc hall l
    obtain ⟨u, rfl, hu⟩ := hall e (List.mem_cons_self _ _)
    rw [List.cons_append, pdfLoop]
    by_cases hu0 : u = []
    · rw [if_pos hu0]
      exact ih acc (fun e2 he2 => hall e2 (List.mem_cons_of_mem _ he2)) l
    · rw [if_neg hu0]
      have hnone : (extract_from_text u).1 = none := hu.resolve_left hu0
      have hE : extract_from_text u = (none, (extract_from_text u).2) := by
        rw [← hnone]
      rw [hE]
      exact ih (u :: acc) (fun e2 he2 => hall e2 (List.mem_cons_of_mem _ he2)) l

/-- C9: PDF orchestration order — pages are scanned one at a time within the
configured limit, the first page whose text yields a result returns that
result immediately (whatever the later pages and the rendering collaborator
hold), and only when the whole text phase yields nothing does the outcome
become the vision tier's. -/
theorem C9_pdf_orchestration :
    (∀ (env : Env) pre t rest imgs pin conf,
      (∀ e ∈ pre, ∃ u, e = Except.ok u ∧
        (u = [] ∨ (extract_from_text u).1 = none)) →
      pre.length < (max 1 env.textPages).toNat →
      extract_from_text t = (some pin, conf) →
      extract_nmc_pin env (.pdf (.ok (pre ++ Except.ok t :: rest)) imgs) =
        ⟨true, some pin, conf⟩) ∧
    (∀ (env : Env) pages imgs txt c,
      pdfLoop (pages.take (max 1 env.textPages).toNat) [] = .text txt →
      extract_from_text txt = (none, c) →
      extract_nmc_pin env (.pdf (.ok pages) imgs) =
        match gemini_extract env imgs with
        | (some p2, c2) => ⟨true, some p2, c2⟩
        | (none, _) => ⟨false, none, 0⟩) := by
  constructor
  · intro env pre t rest imgs pin conf hall hlen hext
    have ht : ¬t = [] := by
      rintro rfl
      have := congrArg Prod.fst hext
      exact Option.noConfusion this
    have htake : (pre ++ Except.ok t :: rest).take (max 1 env.textPages).toNat =
        pre ++ Except.ok t ::
          rest.take ((max 1 env.textPages).toNat - pre.length - 1) := by
      rw [List.take_append_eq_append_take,
        List.take_of_length_le (le_of_lt hlen)]
      congr 1
      obtain ⟨k, hk⟩ : ∃ k, (max 1 env.textPages).toNat - pre.length = k + 1 :=
        ⟨(max 1 env.textPages).toNat - pre.length - 1, by omega⟩
      rw [hk, List.take_succ_cons]
      simp
    simp only [extract_nmc_pin]
    rw [htake]
    obtain ⟨acc2, hskip⟩ := pdfLoop_skip pre [] hall
      (Except.ok t :: rest.take ((max 1 env.textPages).toNat - pre.length - 1))
    rw [hskip, pdfLoop, if_neg ht]
    simp only [hext]
  · intro env pages imgs txt c hloop hext
    simp only [extract_nmc_pin]
    rw [hloop]
    simp only [hext]

/-- Witness for C9: a single-page PDF whose page text holds a labelled pin
returns it from the page loop. -/
theorem C9_pdf_orchestration_witness :
    extract_nmc_pin env0 (.pdf (.ok [Except.ok textNmcPin]) []) =
      ⟨true, some pin23B, 99 / 100⟩ :=
  C9_pdf_orchestration.1 env0 [] textNmcPin [] [] pin23B (99 / 100)
    (by simp) (by decide) rfl

/-- C10: unconfigured vision — with no configured client or an empty image
list the vision tier returns `(None, 0.0)` whatever the remote call would
do, and an image-file input in that unconfigured state produces the normal
negative record. -/
theorem C10_unconfigured_vision :
    (∀ (env : Env) (images : List Img), env.clientOK = false ∨ images = [] →
      gemini_extract env images = (none, 0)) ∧
    (∀ (env : Env) (img : Img) (content : Except Unit (List Char)),
      env.clientOK = false →
      extract_nmc_pin env (.nonPdf (some img) content) = ⟨false, none, 0⟩) := by
  have hg : ∀ (env : Env) images, env.clientOK = false ∨ images = [] →
      gemini_extract env images = (none, 0) := by
    intro env images h
    unfold gemini_extract
    rw [if_pos h]
  refine ⟨hg, ?_⟩
  intro env img content hc
  simp only [extract_nmc_pin]
  rw [hg env [img] (Or.inl hc)]

/-- Witness for C10 on a concrete unconfigured environment and image. -/
theorem C10_unconfigured_vision_witness :
    extract_nmc_pin env0 (.nonPdf (some imgBlank) (.ok [])) =
      ⟨false, none, 0⟩ :=
  C10_unconfigured_vision.2 env0 imgBlank (.ok []) rfl

end NmcExtract
